import Mathlib

/-!
Shallow embedding of `moldock/preparation_for_docking.py` (easydock) and
verification of the spec claims about it.

Python strings are embedded as `List Char`; Python slices `s[a:b]` become
`pySlice`; `str.strip()` becomes `pyStrip`.  Functions that can raise an
uncaught exception return `Option`/`Except` with `none`/`.error` standing
for the raised exception.  External cheminformatics capabilities (RDKit /
OpenBabel / meeko) are abstracted as function parameters, exactly at the
call boundaries the source uses; molecules are embedded as their list of
atomic numbers (`Mol := List Nat`), which is the only part of a molecule
the verified code inspects or mutates directly.
-/

set_option autoImplicit false

namespace Moldock

/-! ### Python string primitives -/

/-- Python slice `s[a:b]` (clamping, never raising). -/
def pySlice (s : List Char) (a b : Nat) : List Char :=
  (s.drop a).take (b - a)

/-- The whitespace characters removed by Python `str.strip()`. -/
def isWS (c : Char) : Bool :=
  c = ' ' ∨ c = '\t' ∨ c = '\n' ∨ c = '\r' ∨ c = '\x0b' ∨ c = '\x0c'

/-- Python `str.strip()`. -/
def pyStrip (s : List Char) : List Char :=
  ((s.dropWhile isWS).reverse.dropWhile isWS).reverse

/-- Python `'{:<ns}'.format(s)`: left justify, pad with spaces to width `n`. -/
def ljust (n : Nat) (s : List Char) : List Char :=
  s ++ List.replicate (n - s.length) ' '

/-- Python `str.split('\n')`. -/
def splitNl : List Char → List (List Char)
  | [] => [[]]
  | c :: rest =>
    if c = '\n' then [] :: splitNl rest
    else
      match splitNl rest with
      | [] => [[c]]
      | l :: ls => (c :: l) :: ls

/-- Python `'\n'.join(lines)`. -/
def joinNl : List (List Char) → List Char
  | [] => []
  | [l] => l
  | l :: ls => l ++ '\n' :: joinNl ls

/-- Python `'CA' in s` (substring containment). -/
def hasCA : List Char → Bool
  | c1 :: c2 :: rest => (c1 = 'C' && c2 = 'A') || hasCA (c2 :: rest)
  | _ => false

/-! ### `fix_pdbqt` (source lines 211-231) -/

/-- Whether a line starts with one of the two atom-record tags
(`line.startswith('HETATM')`, `line.startswith('ATOM')`). -/
def atomTag (line : List Char) : Bool :=
  "HETATM".toList.isPrefixOf line || "ATOM".toList.isPrefixOf line

/-- `atom_type = line[12:16].strip()` — the stripped atom-name field. -/
def nameField (line : List Char) : List Char :=
  pyStrip (pySlice line 12 16)

/-- `atom_pdbqt_type`: `'CA'` if `'CA' in line[77:79]`, else
`re.sub('D|A', '', line[77:79]).strip()`. -/
def derivedType (line : List Char) : List Char :=
  if hasCA (pySlice line 77 79) then ['C', 'A']
  else pyStrip ((pySlice line 77 79).filter (fun c => ¬(c = 'D' ∨ c = 'A')))

/-- One iteration of the `fix_pdbqt` loop body on a single line.
`none` models the uncaught `IndexError` Python raises at `atom_type[0]`
when the stripped name field is empty. -/
def fixLine (line : List Char) : Option (List Char) :=
  if atomTag line then
    let t := nameField line
    let p := derivedType line
    match t with
    | [] => none
    | c0 :: _ =>
      let fmt := if c0.isDigit ∨ p.length = 2 then ljust 4 t else ' ' :: ljust 3 t
      some (line.take 12 ++ fmt ++ line.drop 16)
  else some line

/-- The loop of `fix_pdbqt` over all lines; aborts (exception) as soon as
one line raises. -/
def fixLines : List (List Char) → Option (List (List Char))
  | [] => some []
  | l :: ls =>
    match fixLine l with
    | none => none
    | some l' =>
      match fixLines ls with
      | none => none
      | some ls' => some (l' :: ls')

/-- `fix_pdbqt` (source lines 211-231): split the block on newlines, rewrite
the atom-name field of every `ATOM`/`HETATM` record, re-join. -/
def fix_pdbqt (pdbqt_block : List Char) : Option (List Char) :=
  (fixLines (splitNl pdbqt_block)).map joinNl

/-! ### Molecules

A molecule is embedded as its list of atomic numbers, indexed by atom index:
the only molecular data the verified code reads or writes directly
(`GetAtomicNum` / `SetAtomicNum`).  Everything else (bond orders, geometry,
substructure matching, serialization) is delegated by the source to RDKit
and is abstracted as function parameters at the exact call boundaries. -/

abbrev Mol := List Nat

/-- `[idx for idx, atom in enumerate(mol.GetAtoms()) if atom.GetAtomicNum() == 5]`. -/
def boronIndices (m : Mol) : List Nat :=
  (List.range m.length).filter (fun i => m.getD i 0 = 5)

/-- `for id_ in idx_boron: mol.GetAtomWithIdx(id_).SetAtomicNum(6)`:
replace every boron (5) by carbon (6). -/
def maskBoron (m : Mol) : Mol :=
  m.map (fun a => if a = 5 then 6 else a)

/-- `for i in mol_idx_boron[0]: mol.GetAtomWithIdx(i).SetAtomicNum(5)`:
restore boron (5) at the given indices. -/
def restoreAt (ids : List Nat) (m : Mol) : Mol :=
  ids.foldl (fun acc i => acc.set i 5) m

/-- Insertion into a sorted list (ascending). -/
def insertSorted (x : Nat) : List Nat → List Nat
  | [] => [x]
  | y :: ys => if x ≤ y then x :: y :: ys else y :: insertSorted x ys

/-- Python `sorted` on a list of ints (insertion sort). -/
def sortNat (l : List Nat) : List Nat :=
  l.foldr insertSorted []

/-! ### Diagnostic messages written to stderr by the source -/

def ambigMsg : String :=
  "different mappings was detected. The structure cannot be recostructed automatically."

def tryFixMsg (mol_id : String) : String :=
  "Could not assign bond orders while parsing PDB: " ++ mol_id ++ ". Trying to fix.\n"

def failedMsg (mol_id : String) : String :=
  "Parsing PDB was failed (fixing did not help): " ++ mol_id ++ "\n"

def prepWarnMsg : String :=
  "Warning. Incorrect mol object to convert to pdbqt. Continue. \n"

/-! ### `boron_reduction` (source lines 246-260)

`assignB` abstracts `assign_bonds_from_template` (lines 234-243): `none`
models the exception RDKit raises when bond assignment fails.  `substMatches`
abstracts `mol.GetSubstructMatches(mol_B)`: each returned list maps template
atom index `i` to the matched atom index `ids[i]` in `mol` (RDKit returns
index tuples of exactly the query's length, so `getD` never hits its
default on genuine substMatches). -/

/-- Outcome of `boron_reduction`.  `result` is the returned value
(`.error` = exception propagated out of bond assignment); `finalMol` is the
element list of the bond-assigned molecule object after the call, recording
whether any atom of it was modified. -/
structure BRed where
  result : Except Unit (Option Mol)
  finalMol : Option Mol
  diags : List String

def boron_reduction (assignB : Mol → Mol → Option Mol)
    (substMatches : Mol → Mol → List (List Nat)) (mol_B mol : Mol) : BRed :=
  let idx_boron := boronIndices mol_B
  let mol_Bm := maskBoron mol_B
  match assignB mol_Bm mol with
  | none => ⟨.error (), none, []⟩
  | some mol' =>
    let idx := substMatches mol' mol_Bm
    let mol_idx_boron := (idx.map (fun ids => sortNat (idx_boron.map (fun i => ids.getD i 0)))).dedup
    match mol_idx_boron with
    | [s] => ⟨.ok (some (restoreAt s mol')), some (restoreAt s mol'), []⟩
    | _ => ⟨.ok none, some mol', [ambigMsg]⟩

/-! ### `pdbqt2molblock` (source lines 263-289)

The `while mol_block is None` loop is embedded as an explicit two-state
machine over the `fixed` flag, run by a fuel-indexed driver; fuel exhaustion
(`none` from `reconLoop`) would mean the loop did not terminate within that
many iterations.  An attempt (`attempt state block`) covers one iteration's
parse / template bond assignment / `SetProp` / `MolToMolBlock`: it yields
the produced mol block or `none` when any of those raised (all raises are
caught by the loop's `except`), together with the stderr lines it wrote and
the template state after the iteration (the source mutates the template
in place, see `boronAttempt`). -/

structure LoopState (σ : Type) where
  block : List Char
  fixedFlag : Bool
  tmpl : σ
  attempts : List (List Char)
  diags : List String
deriving DecidableEq

inductive StepRes (σ : Type) where
  | next : LoopState σ → StepRes σ
  | halt : Option (Option String) → LoopState σ → StepRes σ

/-- One iteration of the `while` body.  `halt (some r)` = the function
returns `r`; `halt none` = `fix_pdbqt` itself raised (uncaught). -/
def reconStep {σ : Type} (attempt : σ → List Char → Option String × List String × σ)
    (mol_id : String) (s : LoopState σ) : StepRes σ :=
  let r := attempt s.tmpl s.block
  let s1 : LoopState σ :=
    { s with tmpl := r.2.2, attempts := s.attempts ++ [s.block], diags := s.diags ++ r.2.1 }
  match r.1 with
  | some mb => .halt (some (some mb)) s1
  | none =>
    if s.fixedFlag then .halt (some none) { s1 with diags := s1.diags ++ [failedMsg mol_id] }
    else
      let s2 := { s1 with diags := s1.diags ++ [tryFixMsg mol_id] }
      match fix_pdbqt s.block with
      | none => .halt none s2
      | some b' => .next { s2 with block := b', fixedFlag := true }

/-- Fuel-indexed driver of the `while` loop. -/
def reconLoop {σ : Type} (attempt : σ → List Char → Option String × List String × σ)
    (mol_id : String) : Nat → LoopState σ → Option (Option (Option String) × LoopState σ)
  | 0, _ => none
  | n + 1, s =>
    match reconStep attempt mol_id s with
    | .halt r s' => some (r, s')
    | .next s' => reconLoop attempt mol_id n s'

/-- `pdbqt2molblock` run with fuel 2 (the bound the state machine needs). -/
def pdbqt2molblock {σ : Type} (attempt : σ → List Char → Option String × List String × σ)
    (mol_id : String) (tmpl : σ) (pdbqt_block : List Char) :
    Option (Option (Option String) × LoopState σ) :=
  reconLoop attempt mol_id 2 ⟨pdbqt_block, false, tmpl, [], []⟩

/-- The body of one `pdbqt2molblock` iteration as the source composes it
(lines 274-281): parse the pose block (`parse b = none` models
`MolFromPDBBlock` yielding `None`); if the *current* template contains
boron run `boron_reduction` (which masks the template in place — the
returned template state), else plain bond assignment; `SetProp` on `None`
raises, which the loop's `except` catches. -/
def boronAttempt (parse : List Char → Option Mol) (assignB : Mol → Mol → Option Mol)
    (substMatches : Mol → Mol → List (List Nat)) (serialize : Mol → String)
    (tmpl : Mol) (b : List Char) : Option String × List String × Mol :=
  let molOpt := parse b
  if tmpl.contains 5 then
    match molOpt with
    | none => (none, [], maskBoron tmpl)
    | some mol =>
      let br := boron_reduction assignB substMatches tmpl mol
      match br.result with
      | .error _ => (none, br.diags, maskBoron tmpl)
      | .ok none => (none, br.diags, maskBoron tmpl)
      | .ok (some m) => (some (serialize m), br.diags, maskBoron tmpl)
  else
    match molOpt with
    | none => (none, [], tmpl)
    | some mol =>
      match assignB tmpl mol with
      | none => (none, [], tmpl)
      | some m => (some (serialize m), [], tmpl)

/-! ### `mk_prepare_ligand_string` (source lines 124-153)

`loadMol` abstracts `obutils.load_molecule_from_string` plus the optional
pH / hydrogen adjustments on the OpenBabel molecule (all irrelevant to the
claims, which concern the RDKit re-parse and the prepare step);
`molFromMolBlock` abstracts `Chem.MolFromMolBlock` (`none` = parse failure,
i.e. Python `None`); `getAmideMatch` abstracts
`m.GetSubstructMatch(Chem.MolFromSmarts('[C;!R](=O)[#7]([!#1])[!#1]'))`
(the empty list = no match); `prepare` abstracts
`MoleculePreparation(..., amide_rigid=...).prepare(mol)` followed by
`write_pdbqt_string()`, with `none` = the exception the `try` catches. -/

/-- Observable outcome of `mk_prepare_ligand_string`: the returned value
(`.error` = an uncaught exception propagated to the caller), the
`amide_rigid` flag handed to `MoleculePreparation` (if reached), and the
stderr warnings written. -/
structure MkResult where
  result : Except Unit (Option String)
  amideRigid : Option Bool
  warnings : List String

def mk_prepare_ligand_string {ω : Type} (loadMol : String → ω)
    (molFromMolBlock : String → Option Mol) (getAmideMatch : Mol → List Nat)
    (prepare : Bool → ω → Option String) (molecule_string : String) : MkResult :=
  let obmol := loadMol molecule_string
  match molFromMolBlock molecule_string with
  | none => ⟨.error (), none, []⟩
  | some m =>
    let amide_rigid := decide ((getAmideMatch m).length = 0)
    match prepare amide_rigid obmol with
    | none => ⟨.ok none, some amide_rigid, [prepWarnMsg]⟩
    | some out => ⟨.ok (some out), some amide_rigid, []⟩

/-! ### `ligand_preparation.convert2mol` (source lines 165-191)

`is3dF` abstracts `mol_is_3d`; `addHs` abstracts
`Chem.AddHs(m, addCoords=True)`; `embed m useRandomCoords randomSeed`
abstracts `gen_conf` (ETKDGv3 parameters + `AllChem.EmbedMolecule`),
returning the molecule and `conf_stat` (`-1` = embedding failed);
`uffOpt m maxIters` abstracts `AllChem.UFFOptimizeMolecule(m, maxIters)`;
`toMolBlock` abstracts `Chem.MolToMolBlock`. -/

/-- Observable outcome of `convert2mol`: the returned mol block (`none` =
Python `None`), every embedding call made (argument molecule,
`useRandomCoords`, `randomSeed`) in order, and every force-field
optimization call made (argument molecule, `maxIters`). -/
structure ConvResult where
  res : Option String
  embedCalls : List (Mol × Bool × Nat)
  uffCalls : List (Mol × Nat)
deriving DecidableEq

def convert2mol (is3dF : Mol → Bool) (addHs : Mol → Mol)
    (embed : Mol → Bool → Nat → Mol × Int) (uffOpt : Mol → Nat → Mol)
    (toMolBlock : Mol → String) (seed : Nat) (mOpt : Option Mol) : ConvResult :=
  match mOpt with
  | none => ⟨none, [], []⟩
  | some m0 =>
    let is3d := is3dF m0
    let m1 := addHs m0
    if is3d then
      ⟨some (toMolBlock (maskBoron m1)), [], []⟩
    else
      let e1 := embed m1 false seed
      if e1.2 = -1 then
        let e2 := embed e1.1 true seed
        if e2.2 = -1 then ⟨none, [(m1, false, seed), (e1.1, true, seed)], []⟩
        else
          ⟨some (toMolBlock (maskBoron (uffOpt e2.1 100))),
           [(m1, false, seed), (e1.1, true, seed)], [(e2.1, 100)]⟩
      else
        ⟨some (toMolBlock (maskBoron (uffOpt e1.1 100))), [(m1, false, seed)], [(e1.1, 100)]⟩

/-! ### `add_protonation` (source lines 44-121) and the database

The two SQLite tables are embedded as records; `synthBlock` abstracts
`Chem.MolFromSmiles` + `SetProp` + `Chem.MolToMolBlock` for rows without a
source mol block (`none` = `MolFromSmiles` returned `None`, so `SetProp`
raises and the exception propagates with nothing committed); `canon`
abstracts `Chem.CanonSmiles`; `cxcalc` abstracts the external calculator
subprocess together with `Chem.SDMolSupplier` over its output file: the
records parsed back, each carrying the `_Name` tag, the optional `MAJORMS`
property and the record's mol block. -/

structure MolRow where
  id : String
  smi : String
  smi_protonated : Option String
  source_mol_block : Option String
  source_mol_block_protonated : Option String
deriving DecidableEq

structure SetupRow where
  protonation : Bool
  protonation_done : Bool
  protein_pdbqt : String
  protein_setup : String
deriving DecidableEq

structure LigDB where
  setup : SetupRow
  mols : List MolRow
deriving DecidableEq

structure CxRecord where
  name : String
  majorms : Option String
  molblock : String

/-- The `for i, (smi, mol_block, mol_name) in enumerate(data_list)` loop
(source lines 65-76) restricted to its observable effect: the mol block of
every row, synthesized from the SMILES when the row has none; `none` = the
`AttributeError` raised when `MolFromSmiles` returns `None` mid-loop. -/
def collectBlocks (synthBlock : String → Option String) : List MolRow → Option (List String)
  | [] => some []
  | r :: rest =>
    match (match r.source_mol_block with
           | some b => some b
           | none => synthBlock r.smi) with
    | none => none
    | some b =>
      match collectBlocks synthBlock rest with
      | none => none
      | some bs => some (b :: bs)

/-- `add_protonation`: first component is the database state after the call
(`none` = an exception propagated, nothing committed), second is the number
of external-calculator invocations performed. -/
def add_protonation (synthBlock : String → Option String) (canon : String → String)
    (cxcalc : List String → List CxRecord) (db : LigDB) : Option LigDB × Nat :=
  if db.setup.protonation ∧ ¬ db.setup.protonation_done then
    if db.mols.isEmpty then (some db, 0)
    else
      match collectBlocks synthBlock db.mols with
      | none => (none, 0)
      | some blocks =>
        let smi_ids := (db.mols.filter (fun r => r.source_mol_block = none)).map MolRow.id
        let mol_ids := (db.mols.filter (fun r => ¬ r.source_mol_block = none)).map MolRow.id
        let outs := cxcalc blocks
        let output_data_smi := outs.filterMap (fun o =>
          match o.majorms with
          | none => none
          | some s => if o.name ∈ smi_ids then some (canon s, o.name) else none)
        let output_data_mol := outs.filterMap (fun o =>
          match o.majorms with
          | none => none
          | some s =>
            if o.name ∉ smi_ids ∧ o.name ∈ mol_ids then some (canon s, o.molblock, o.name)
            else none)
        let mols1 := output_data_smi.foldl (fun acc p =>
          acc.map (fun r => if r.id = p.2 then { r with smi_protonated := some p.1 } else r))
          db.mols
        let mols2 := output_data_mol.foldl (fun acc p =>
          acc.map (fun r =>
            if r.id = p.2.2 then
              { r with smi_protonated := some p.1, source_mol_block_protonated := some p.2.1 }
            else r)) mols1
        (some { setup := { db.setup with protonation_done := true }, mols := mols2 }, 1)
  else (some db, 0)

/-! ### Concrete inputs and oracle instantiations used by counterexamples
and witnesses -/

/-- A `HETATM` record with atom name `CL` (columns 13-16) and atom type
`Cl` (columns 78-79); the gaps are spaces. -/
def clLine : List Char :=
  "HETATM".toList ++ List.replicate 6 ' ' ++ "CL  ".toList ++ List.replicate 61 ' ' ++ "Cl".toList

/-- An `ATOM` record with the digit-leading atom name `1HG`. -/
def oneHGLine : List Char :=
  "ATOM".toList ++ List.replicate 8 ' ' ++ "1HG ".toList ++ List.replicate 61 ' ' ++ "HD".toList

/-- An `ATOM` record with a four-character atom name `HG11` whose type
columns 78-79 read `AA` (stripping to the empty type) while columns 77-78
read `CA`: fixing widens the name field to five characters and shifts the
type columns. -/
def hgLine : List Char :=
  "ATOM".toList ++ List.replicate 8 ' ' ++ "HG11".toList ++ List.replicate 60 ' ' ++ "CAA".toList

/-- An `ATOM` record of width 16 with a four-character atom name `HG12`
and empty type columns. -/
def hg2Line : List Char :=
  "ATOM".toList ++ List.replicate 8 ' ' ++ "HG12".toList

/-- A well-behaved two-line pose block (one `ATOM` record with a short
name, one other record). -/
def goodBlock : List Char :=
  "ATOM".toList ++ List.replicate 8 ' ' ++ "N".toList ++ ['\n'] ++ "ENDROOT".toList

/-- Parse oracle: every pose block parses to a two-carbon fragment. -/
def demoParse : List Char → Option Mol := fun _ => some [6, 6]

/-- Bond-assignment oracle that always succeeds, returning the target
molecule's atoms unchanged (bond orders are not part of `Mol`). -/
def demoAssign : Mol → Mol → Option Mol := fun _ m => some m

/-- Substructure-match oracle for an ethane-like symmetric target: the
masked template `C-C` maps onto atoms `(0,1)` and `(1,0)`. -/
def demoMatches2 : Mol → Mol → List (List Nat) := fun _ _ => [[0, 1], [1, 0]]

/-- Substructure-match oracle with a single match `(0,1)`. -/
def demoMatches1 : Mol → Mol → List (List Nat) := fun _ _ => [[0, 1]]

/-- Serialization oracle (`Chem.MolToMolBlock`). -/
def demoSerialize : Mol → String := fun _ => "MOLBLOCK"

/-- A methylboronic-fragment-like template: one boron, one carbon. -/
def demoTemplate : Mol := [5, 6]

/-- `obutils.load_molecule_from_string` oracle (OpenBabel state opaque). -/
def demoLoad : String → Unit := fun _ => ()

/-- `Chem.MolFromMolBlock` oracle for an input RDKit cannot parse. -/
def demoReparseFail : String → Option Mol := fun _ => none

/-- `Chem.MolFromMolBlock` oracle for a parseable input. -/
def demoReparseOk : String → Option Mol := fun _ => some [6, 6, 8, 7]

/-- Amide-pattern oracle: the non-ring tertiary-amide SMARTS matches atoms
`0,1,2,3`. -/
def demoAmideHit : Mol → List Nat := fun _ => [0, 1, 2, 3]

/-- Amide-pattern oracle: no match (empty tuple). -/
def demoAmideMiss : Mol → List Nat := fun _ => []

/-- Prepare oracle that succeeds. -/
def demoPrep : Bool → Unit → Option String := fun _ _ => some ("PDBQT")

/-- Embedding oracle that always fails (`conf_stat = -1`). -/
def demoEmbedFail : Mol → Bool → Nat → Mol × Int := fun m _ _ => (m, -1)

/-- Embedding oracle that fails without random coordinates and succeeds
with them. -/
def demoEmbedRetry : Mol → Bool → Nat → Mol × Int :=
  fun m useRandomCoords _ => (m, if useRandomCoords then 0 else -1)

/-- `mol_is_3d` oracle: no conformer. -/
def demoNot3d : Mol → Bool := fun _ => false

/-- `Chem.AddHs` oracle: append two hydrogens. -/
def demoAddHs : Mol → Mol := fun m => m ++ [1, 1]

/-- `UFFOptimizeMolecule` oracle (geometry only, atoms unchanged). -/
def demoUff : Mol → Nat → Mol := fun m _ => m

/-- `Chem.MolToMolBlock` oracle for `convert2mol`. -/
def demoToBlock : Mol → String := fun _ => "CONF"

/-- A database whose setup row has protonation requested and already done. -/
def dbDone : LigDB :=
  { setup := { protonation := true, protonation_done := true,
               protein_pdbqt := "P", protein_setup := "S" },
    mols := [{ id := "m1", smi := "CCO", smi_protonated := none,
               source_mol_block := none, source_mol_block_protonated := none }] }

/-- The same database with protonation not yet done. -/
def dbPending : LigDB :=
  { setup := { protonation := true, protonation_done := false,
               protein_pdbqt := "P", protein_setup := "S" },
    mols := [{ id := "m1", smi := "CCO", smi_protonated := none,
               source_mol_block := none, source_mol_block_protonated := none }] }

/-- Synthesized-mol-block oracle that always succeeds. -/
def demoSynth : String → Option String := fun s => some ("BLK" ++ s)

/-- Canonical-SMILES oracle. -/
def demoCanon : String → String := fun s => s

/-- External-calculator oracle: one output record tagged `m1`. -/
def demoCx : List String → List CxRecord :=
  fun _ => [{ name := "m1", majorms := some ("CCO"), molblock := "MB1" }]

/-- The set of distinct sorted guarded-position index-sets formed by
`boron_reduction` (source lines 251-253): one sorted tuple
`tuple(sorted(ids[i] for i in idx_boron))` per substructure match of the
masked template against the bond-assigned molecule `mol'`, deduplicated. -/
def distinctBoronSets (substMatches : Mol → Mol → List (List Nat)) (mol_B mol' : Mol) :
    List (List Nat) :=
  ((substMatches mol' (maskBoron mol_B)).map
    (fun ids => sortNat ((boronIndices mol_B).map (fun i => ids.getD i 0)))).dedup

/-! ### Derived shorthands about `fix_pdbqt` used in theorem statements -/

/-- The `atom_format_type` field `fix_pdbqt` writes (the two-branch format
expression of source lines 224-227). -/
def fmtOf (line : List Char) : List Char :=
  if ((nameField line).headD ' ').isDigit = true ∨ (derivedType line).length = 2 then
    ljust 4 (nameField line)
  else ' ' :: ljust 3 (nameField line)

/-- Condition under which the rewritten name field is exactly 4 characters
wide (so no column shifting occurs): the left-justify branch is taken, or
the stripped name has at most 3 characters. -/
def widthCond (line : List Char) : Prop :=
  ((nameField line).headD ' ').isDigit = true ∨ (derivedType line).length = 2 ∨
    (nameField line).length ≤ 3

instance (line : List Char) : Decidable (widthCond line) := by
  unfold widthCond; infer_instance

/-- A line on which `fix_pdbqt` neither raises nor shifts columns. -/
def goodLine (l : List Char) : Prop :=
  '\n' ∉ l ∧ (atomTag l = true → nameField l ≠ [] ∧ widthCond l)

instance (l : List Char) : Decidable (goodLine l) := by
  unfold goodLine; infer_instance

/-! ## Theorems

First a block of helper lemmas about the Python string primitives, then one
theorem (plus counterexample / witness where required) per claim. -/

theorem dropWhile_ws_replicate (n : Nat) (s : List Char) :
    List.dropWhile isWS (List.replicate n ' ' ++ s) = List.dropWhile isWS s := by
  induction n with
  | zero => simp
  | succ n ih =>
    rw [List.replicate_succ, List.cons_append, List.dropWhile_cons]
    simp only [show isWS ' ' = true from rfl, if_true]
    exact ih

theorem dropWhile_ws_replicate_nil (n : Nat) :
    List.dropWhile isWS (List.replicate n ' ') = [] := by
  have h := dropWhile_ws_replicate n []
  simpa using h

theorem pyStrip_replicate_append (n : Nat) (s : List Char) :
    pyStrip (List.replicate n ' ' ++ s) = pyStrip s := by
  unfold pyStrip
  rw [dropWhile_ws_replicate]

theorem pyStrip_append_replicate (s : List Char) (n : Nat) :
    pyStrip (s ++ List.replicate n ' ') = pyStrip s := by
  unfold pyStrip
  rw [List.dropWhile_append]
  by_cases h : (List.dropWhile isWS s).isEmpty
  · rw [if_pos h, dropWhile_ws_replicate_nil]
    rw [List.isEmpty_iff] at h
    rw [h]
  · rw [if_neg h]
    rw [List.reverse_append, List.reverse_replicate, dropWhile_ws_replicate]

theorem dropWhile_idem (p : Char → Bool) (l : List Char) :
    List.dropWhile p (List.dropWhile p l) = List.dropWhile p l := by
  induction l with
  | nil => rfl
  | cons a l ih =>
    rw [List.dropWhile_cons]
    by_cases h : p a
    · rw [if_pos h]; exact ih
    · rw [if_neg h, List.dropWhile_cons, if_neg h]

theorem headD_dropWhile_false (p : Char → Bool) (l : List Char) (c : Char)
    (h : List.dropWhile p l ≠ []) : p ((List.dropWhile p l).headD c) = false := by
  induction l with
  | nil => exact absurd rfl h
  | cons a l ih =>
    rw [List.dropWhile_cons] at h ⊢
    by_cases ha : p a
    · rw [if_pos ha] at h ⊢; exact ih h
    · rw [if_neg ha]
      simpa using Bool.of_not_eq_true ha

theorem dropWhile_eq_self_of_headD (p : Char → Bool) (l : List Char) (c : Char)
    (h : p (l.headD c) = false) : List.dropWhile p l = l := by
  cases l with
  | nil => rfl
  | cons a t =>
    simp only [List.headD_cons] at h
    rw [List.dropWhile_cons, if_neg (by simp [h])]

theorem prefix_headD_eq {l₁ l₂ : List Char} (h : l₁ <+: l₂) (hne : l₁ ≠ []) (c : Char) :
    l₂.headD c = l₁.headD c := by
  obtain ⟨t, rfl⟩ := h
  cases l₁ with
  | nil => exact absurd rfl hne
  | cons a t1 => rfl

theorem rstrip_prefix_self (p : Char → Bool) (l : List Char) :
    (List.dropWhile p l.reverse).reverse <+: l := by
  have h : List.dropWhile p l.reverse <:+ l.reverse := List.dropWhile_suffix p
  have h2 : ((List.dropWhile p l.reverse).reverse).reverse <:+ l.reverse := by
    rwa [List.reverse_reverse]
  have := List.reverse_suffix.mp h2
  exact this

theorem pyStrip_idem (s : List Char) : pyStrip (pyStrip s) = pyStrip s := by
  by_cases hr : pyStrip s = []
  · rw [hr]; rfl
  · have hstep1 : List.dropWhile isWS (pyStrip s) = pyStrip s := by
      have hpre : pyStrip s <+: List.dropWhile isWS s := rstrip_prefix_self isWS _
      have hl : List.dropWhile isWS s ≠ [] := by
        intro h0
        apply hr
        unfold pyStrip at *
        rw [h0]; rfl
      have hhead : isWS ((List.dropWhile isWS s).headD ' ') = false :=
        headD_dropWhile_false isWS s ' ' hl
      have : (pyStrip s).headD ' ' = (List.dropWhile isWS s).headD ' ' :=
        (prefix_headD_eq hpre hr ' ').symm
      exact dropWhile_eq_self_of_headD isWS _ ' ' (this ▸ hhead)
    show pyStrip (pyStrip s) = pyStrip s
    unfold pyStrip
    rw [show List.dropWhile isWS ((((s.dropWhile isWS).reverse.dropWhile isWS).reverse))
          = ((s.dropWhile isWS).reverse.dropWhile isWS).reverse from hstep1]
    rw [List.reverse_reverse, dropWhile_idem]

theorem pyStrip_ljust (n : Nat) (s : List Char) :
    pyStrip (ljust n (pyStrip s)) = pyStrip s := by
  unfold ljust
  rw [pyStrip_append_replicate, pyStrip_idem]

theorem pyStrip_space_ljust (n : Nat) (s : List Char) :
    pyStrip (' ' :: ljust n (pyStrip s)) = pyStrip s := by
  have h : (' ' :: ljust n (pyStrip s)) = List.replicate 1 ' ' ++ ljust n (pyStrip s) := rfl
  rw [h, pyStrip_replicate_append, pyStrip_ljust]

theorem pyStrip_length_le (s : List Char) : (pyStrip s).length ≤ s.length := by
  have h1 : (List.dropWhile isWS s).length ≤ s.length :=
    (List.dropWhile_suffix isWS).sublist.length_le
  have h2 : (List.dropWhile isWS (List.dropWhile isWS s).reverse).length ≤
      (List.dropWhile isWS s).reverse.length :=
    (List.dropWhile_suffix isWS).sublist.length_le
  unfold pyStrip
  rw [List.length_reverse]
  refine le_trans h2 ?_
  rwa [List.length_reverse]

theorem nameField_length_le (line : List Char) : (nameField line).length ≤ 4 := by
  unfold nameField
  refine le_trans (pyStrip_length_le _) ?_
  unfold pySlice
  rw [List.length_take]
  omega

theorem length_gt_of_nameField_ne (line : List Char) (h : nameField line ≠ []) :
    12 < line.length := by
  by_contra hl
  push_neg at hl
  apply h
  unfold nameField pySlice
  rw [List.drop_eq_nil_of_le hl]
  rfl

theorem ljust_length (n : Nat) (s : List Char) : (ljust n s).length = max n s.length := by
  unfold ljust
  rw [List.length_append, List.length_replicate]
  omega

theorem fixLine_eq_of_tag (line : List Char) (hTag : atomTag line = true)
    (hT : nameField line ≠ []) :
    fixLine line = some (line.take 12 ++ fmtOf line ++ line.drop 16) := by
  unfold fixLine fmtOf
  rw [hTag]
  simp only [if_true]
  cases h : nameField line with
  | nil => exact absurd h hT
  | cons c0 rest =>
    simp only [h, List.headD_cons]

theorem fixLine_eq_of_no_tag (line : List Char) (hTag : atomTag line = false) :
    fixLine line = some line := by
  unfold fixLine
  rw [hTag]
  rfl

theorem pyStrip_fmtOf (line : List Char) : pyStrip (fmtOf line) = nameField line := by
  unfold fmtOf
  by_cases h : ((nameField line).headD ' ').isDigit = true ∨ (derivedType line).length = 2
  · rw [if_pos h]
    unfold nameField
    exact pyStrip_ljust 4 _
  · rw [if_neg h]
    unfold nameField
    exact pyStrip_space_ljust 3 _

theorem fmtOf_length (line : List Char) (hW : widthCond line) : (fmtOf line).length = 4 := by
  unfold fmtOf
  by_cases h : ((nameField line).headD ' ').isDigit = true ∨ (derivedType line).length = 2
  · rw [if_pos h, ljust_length]
    have := nameField_length_le line
    omega
  · rw [if_neg h]
    have h3 : (nameField line).length ≤ 3 := by
      unfold widthCond at hW
      rcases hW with h1 | h2 | h3
      · exact absurd (Or.inl h1) h
      · exact absurd (Or.inr h2) h
      · exact h3
    rw [List.length_cons, ljust_length]
    omega

theorem take12_mid (line fmt : List Char) (h12 : 12 < line.length) :
    (line.take 12 ++ fmt ++ line.drop 16).take 12 = line.take 12 := by
  have hlen : (line.take 12).length = 12 := by
    rw [List.length_take]; omega
  rw [List.append_assoc, List.take_append_eq_append_take, hlen]
  simp [List.take_take]

theorem drop16_mid (line fmt : List Char) (h12 : 12 < line.length) (h4 : fmt.length = 4) :
    (line.take 12 ++ fmt ++ line.drop 16).drop 16 = line.drop 16 := by
  have hlen : (line.take 12 ++ fmt).length = 16 := by
    rw [List.length_append, List.length_take, h4]; omega
  rw [← hlen, List.drop_left]

theorem pySlice_mid (line fmt : List Char) (h12 : 12 < line.length) (h4 : fmt.length = 4) :
    pySlice (line.take 12 ++ fmt ++ line.drop 16) 12 16 = fmt := by
  unfold pySlice
  have hlen : (line.take 12).length = 12 := by
    rw [List.length_take]; omega
  rw [List.append_assoc, List.drop_append_eq_append_drop, hlen,
    List.drop_eq_nil_of_le (le_of_eq hlen), List.nil_append]
  norm_num
  rw [List.take_append_eq_append_take, h4]
  norm_num
  exact le_of_eq h4

theorem pySlice_high_eq {l₁ l₂ : List Char} (h : l₁.drop 16 = l₂.drop 16) (a b : Nat)
    (ha : 16 ≤ a) : pySlice l₁ a b = pySlice l₂ a b := by
  unfold pySlice
  have h1 : l₁.drop a = l₂.drop a := by
    have e1 : l₁.drop a = (l₁.drop 16).drop (a - 16) := by
      rw [List.drop_drop]
      congr 1
      omega
    have e2 : l₂.drop a = (l₂.drop 16).drop (a - 16) := by
      rw [List.drop_drop]
      congr 1
      omega
    rw [e1, e2, h]
  rw [h1]

theorem derivedType_eq_of_drop16 {l₁ l₂ : List Char} (h : l₁.drop 16 = l₂.drop 16) :
    derivedType l₁ = derivedType l₂ := by
  unfold derivedType
  rw [pySlice_high_eq h 77 79 (by omega)]

theorem atomTag_eq_of_take12 {l₁ l₂ : List Char} (h : l₁.take 12 = l₂.take 12) :
    atomTag l₁ = atomTag l₂ := by
  have key : ∀ u : List Char, u.length ≤ 12 → u.isPrefixOf l₁ = u.isPrefixOf l₂ := by
    intro u hu
    have hiff : u <+: l₁ ↔ u <+: l₂ := by
      rw [List.prefix_iff_eq_take, List.prefix_iff_eq_take]
      have e1 : l₁.take u.length = l₂.take u.length := by
        have t1 : l₁.take u.length = (l₁.take 12).take u.length := by
          rw [List.take_take]
          congr 1
          omega
        have t2 : l₂.take u.length = (l₂.take 12).take u.length := by
          rw [List.take_take]
          congr 1
          omega
        rw [t1, t2, h]
      rw [e1]
    cases hb1 : u.isPrefixOf l₁ with
    | true =>
      have := hiff.mp (List.isPrefixOf_iff_prefix.mp hb1)
      exact (List.isPrefixOf_iff_prefix.mpr this).symm
    | false =>
      cases hb2 : u.isPrefixOf l₂ with
      | true =>
        have := hiff.mpr (List.isPrefixOf_iff_prefix.mp hb2)
        rw [← hb1]
        exact List.isPrefixOf_iff_prefix.mpr this
      | false => rfl
  unfold atomTag
  rw [key _ (by decide), key _ (by decide)]

theorem mem_of_mem_pyStrip {a : Char} {s : List Char} (h : a ∈ pyStrip s) : a ∈ s := by
  unfold pyStrip at h
  rw [List.mem_reverse] at h
  have h1 := (List.dropWhile_suffix isWS).sublist.subset h
  rw [List.mem_reverse] at h1
  exact (List.dropWhile_suffix isWS).sublist.subset h1

theorem mem_of_mem_pySlice {a : Char} {s : List Char} {i j : Nat}
    (h : a ∈ pySlice s i j) : a ∈ s := by
  unfold pySlice at h
  exact List.drop_subset i s (List.take_subset _ _ h)

theorem mem_of_mem_nameField {a : Char} {line : List Char} (h : a ∈ nameField line) :
    a ∈ line := by
  unfold nameField at h
  exact mem_of_mem_pySlice (mem_of_mem_pyStrip h)

theorem no_nl_fmtOf (line : List Char) (hnl : '\n' ∉ line) : '\n' ∉ fmtOf line := by
  unfold fmtOf ljust
  intro hmem
  have hname : '\n' ∉ nameField line := fun hm => hnl (mem_of_mem_nameField hm)
  by_cases h : ((nameField line).headD ' ').isDigit = true ∨ (derivedType line).length = 2
  · rw [if_pos h] at hmem
    rcases List.mem_append.mp hmem with h1 | h2
    · exact hname h1
    · exact absurd (List.mem_replicate.mp h2).2 (by decide)
  · rw [if_neg h] at hmem
    rcases List.mem_cons.mp hmem with h0 | h1
    · exact absurd h0 (by decide)
    · rcases List.mem_append.mp h1 with h2 | h3
      · exact hname h2
      · exact absurd (List.mem_replicate.mp h3).2 (by decide)

theorem no_nl_fixed (line : List Char) (hnl : '\n' ∉ line) :
    '\n' ∉ line.take 12 ++ fmtOf line ++ line.drop 16 := by
  intro hmem
  rcases List.mem_append.mp hmem with h1 | h2
  · rcases List.mem_append.mp h1 with h3 | h4
    · exact hnl (List.take_subset _ _ h3)
    · exact no_nl_fmtOf line hnl h4
  · exact hnl (List.drop_subset _ _ h2)

/-- Per-line behaviour of the fixer under `goodLine`: the rewrite succeeds,
preserves everything outside the name field, and is idempotent. -/
theorem fixLine_good (line : List Char) (hg : goodLine line) :
    ∃ out : List Char, fixLine line = some out ∧ fixLine out = some out ∧
      '\n' ∉ out ∧ (atomTag line = false → out = line) ∧
      (atomTag line = true → out.take 12 = line.take 12 ∧ out.drop 16 = line.drop 16) := by
  obtain ⟨hnl, hatom⟩ := hg
  cases hTag : atomTag line with
  | false =>
    refine ⟨line, fixLine_eq_of_no_tag line hTag, fixLine_eq_of_no_tag line hTag, hnl,
      fun _ => rfl, fun h => absurd h Bool.false_ne_true⟩
  | true =>
    obtain ⟨hT, hW⟩ := hatom hTag
    have h12 : 12 < line.length := length_gt_of_nameField_ne line hT
    have h4 : (fmtOf line).length = 4 := fmtOf_length line hW
    set out := line.take 12 ++ fmtOf line ++ line.drop 16 with hout
    have heq : fixLine line = some out := fixLine_eq_of_tag line hTag hT
    have htake : out.take 12 = line.take 12 := take12_mid line (fmtOf line) h12
    have hdrop : out.drop 16 = line.drop 16 := drop16_mid line (fmtOf line) h12 h4
    have hname : nameField out = nameField line := by
      unfold nameField
      rw [show pySlice out 12 16 = fmtOf line from pySlice_mid line (fmtOf line) h12 h4]
      exact pyStrip_fmtOf line
    have hdt : derivedType out = derivedType line := derivedType_eq_of_drop16 hdrop
    have hTag' : atomTag out = true := by rw [atomTag_eq_of_take12 htake, hTag]
    have hfmt : fmtOf out = fmtOf line := by
      unfold fmtOf
      rw [hname, hdt]
    have hidem : fixLine out = some out := by
      rw [fixLine_eq_of_tag out hTag' (by rw [hname]; exact hT), hfmt, htake, hdrop]
    exact ⟨out, heq, hidem, no_nl_fixed line hnl, fun hf => absurd hf (by decide),
      fun _ => ⟨htake, hdrop⟩⟩

theorem splitNl_ne_nil (b : List Char) : splitNl b ≠ [] := by
  cases b with
  | nil => simp [splitNl]
  | cons c rest =>
    unfold splitNl
    by_cases h : c = '\n'
    · rw [if_pos h]; simp
    · rw [if_neg h]
      cases splitNl rest <;> simp

theorem no_nl_mem_splitNl (b : List Char) : ∀ l ∈ splitNl b, '\n' ∉ l := by
  induction b with
  | nil =>
    intro l hl
    simp [splitNl] at hl
    simp [hl]
  | cons c rest ih =>
    intro l hl
    unfold splitNl at hl
    by_cases h : c = '\n'
    · rw [if_pos h] at hl
      rcases List.mem_cons.mp hl with h1 | h2
      · simp [h1]
      · exact ih l h2
    · rw [if_neg h] at hl
      cases hs : splitNl rest with
      | nil => exact absurd hs (splitNl_ne_nil rest)
      | cons l0 ls0 =>
        rw [hs] at hl
        rcases List.mem_cons.mp hl with h1 | h2
        · subst h1
          intro hm
          rcases List.mem_cons.mp hm with h3 | h4
          · exact h h3.symm
          · exact ih l0 (hs ▸ List.mem_cons_self l0 ls0) h4
        · exact ih l (hs ▸ List.mem_cons_of_mem l0 h2)

theorem splitNl_no_nl (l : List Char) (h : '\n' ∉ l) : splitNl l = [l] := by
  induction l with
  | nil => rfl
  | cons c rest ih =>
    unfold splitNl
    have hc : ¬ c = '\n' := fun e => h (e ▸ List.mem_cons_self c rest)
    rw [if_neg hc, ih (fun hm => h (List.mem_cons_of_mem c hm))]

theorem splitNl_cons (c : Char) (rest : List Char) :
    splitNl (c :: rest) = if c = '\n' then [] :: splitNl rest
      else match splitNl rest with
        | [] => [[c]]
        | l :: ls => (c :: l) :: ls := rfl

theorem splitNl_append_nl (l r : List Char) (h : '\n' ∉ l) :
    splitNl (l ++ '\n' :: r) = l :: splitNl r := by
  induction l with
  | nil =>
    rw [List.nil_append, splitNl_cons, if_pos rfl]
  | cons c rest ih =>
    have hc : ¬ c = '\n' := fun e => h (e ▸ List.mem_cons_self c rest)
    rw [List.cons_append, splitNl_cons, if_neg hc, ih (fun hm => h (List.mem_cons_of_mem c hm))]

theorem splitNl_joinNl (ls : List (List Char)) (hne : ls ≠ [])
    (hn : ∀ l ∈ ls, '\n' ∉ l) : splitNl (joinNl ls) = ls := by
  induction ls with
  | nil => exact absurd rfl hne
  | cons l rest ih =>
    cases rest with
    | nil => exact splitNl_no_nl l (hn l (List.mem_cons_self l []))
    | cons l2 rest2 =>
      have hj : joinNl (l :: l2 :: rest2) = l ++ '\n' :: joinNl (l2 :: rest2) := rfl
      rw [hj, splitNl_append_nl l _ (hn l (List.mem_cons_self l _)),
        ih (by simp) (fun x hx => hn x (List.mem_cons_of_mem l hx))]

/-- Block-level behaviour of the fixer's line loop on good blocks. -/
theorem fixLines_good (ls : List (List Char)) (h : ∀ l ∈ ls, goodLine l) :
    ∃ outs : List (List Char), fixLines ls = some outs ∧
      List.Forall₂ (fun line out => (atomTag line = false → out = line) ∧
        (atomTag line = true → out.take 12 = line.take 12 ∧ out.drop 16 = line.drop 16))
        ls outs ∧
      (∀ o ∈ outs, fixLine o = some o ∧ '\n' ∉ o) := by
  induction ls with
  | nil => exact ⟨[], rfl, List.Forall₂.nil, by simp⟩
  | cons l rest ih =>
    obtain ⟨out, heq, hidem, hnl, hpass, hframe⟩ :=
      fixLine_good l (h l (List.mem_cons_self l rest))
    obtain ⟨outs, heqs, hrel, hself⟩ := ih (fun x hx => h x (List.mem_cons_of_mem l hx))
    refine ⟨out :: outs, ?_, List.Forall₂.cons ⟨hpass, hframe⟩ hrel, ?_⟩
    · unfold fixLines
      rw [heq, heqs]
    · intro o ho
      rcases List.mem_cons.mp ho with h1 | h2
      · subst h1; exact ⟨hidem, hnl⟩
      · exact hself o h2

theorem fixLines_self (outs : List (List Char)) (h : ∀ o ∈ outs, fixLine o = some o) :
    fixLines outs = some outs := by
  induction outs with
  | nil => rfl
  | cons o rest ih =>
    unfold fixLines
    rw [h o (List.mem_cons_self o rest), ih (fun x hx => h x (List.mem_cons_of_mem o hx))]

/-- Claim C4 counterexample: on a `HETATM` record with atom name `CL` and
type columns 78-79 reading `Cl`, `fix_pdbqt` writes the left-justified name
field `CL  ` (the derived type `Cl` is two letters long), not the
` CL ` field the claim asserts. -/
theorem claim_C4_counterexample :
    (fix_pdbqt clLine).map (fun l => pySlice l 12 16) = some ['C', 'L', ' ', ' '] ∧
    (fix_pdbqt clLine).map (fun l => pySlice l 12 16) ≠ some [' ', 'C', 'L', ' '] := by
  exact ⟨by decide, by decide⟩

/-- Claim C4 (amended): for every atom-record line with a nonempty stripped
name, `fix_pdbqt` replaces the name field by `atom_format_type`: the name
left-justified in a 4-character field when the name starts with a digit or
the type derived from columns 78-79 is two letters long (so `1HG` becomes
`1HG `, and `CL` with type `Cl` becomes `CL  `), and otherwise one leading
space followed by the name left-justified in a 3-character field; a
type-column value containing `CA` (calcium) is taken over literally, never
stripped of its letters. -/
theorem claim_C4_amended (line : List Char) (hnl : '\n' ∉ line)
    (hTag : atomTag line = true) (hT : nameField line ≠ []) :
    fix_pdbqt line = some (line.take 12 ++ fmtOf line ++ line.drop 16) ∧
    (((nameField line).headD ' ').isDigit = true ∨ (derivedType line).length = 2 →
      fmtOf line = ljust 4 (nameField line)) ∧
    (¬(((nameField line).headD ' ').isDigit = true ∨ (derivedType line).length = 2) →
      fmtOf line = ' ' :: ljust 3 (nameField line)) ∧
    (hasCA (pySlice line 77 79) = true → derivedType line = ['C', 'A']) := by
  refine ⟨?_, ?_, ?_, ?_⟩
  · unfold fix_pdbqt
    rw [splitNl_no_nl line hnl]
    unfold fixLines
    rw [fixLine_eq_of_tag line hTag hT]
    rfl
  · intro h
    unfold fmtOf
    rw [if_pos h]
  · intro h
    unfold fmtOf
    rw [if_neg h]
  · intro h
    unfold derivedType
    rw [if_pos h]

/-- Claim C4 witness: the amended rule evaluated on a concrete `ATOM`
record with digit-leading name `1HG`, whose rewritten name field is the
left-justified `1HG `. -/
theorem claim_C4_witness :
    fix_pdbqt oneHGLine =
      some (oneHGLine.take 12 ++ fmtOf oneHGLine ++ oneHGLine.drop 16) ∧
    fmtOf oneHGLine = ljust 4 (nameField oneHGLine) ∧
    fmtOf oneHGLine = ['1', 'H', 'G', ' '] := by
  refine ⟨(claim_C4_amended oneHGLine (by decide) (by decide) (by decide)).1,
    (claim_C4_amended oneHGLine (by decide) (by decide) (by decide)).2.1 (by decide),
    by decide⟩

/-- Claim C6 counterexample: `fix_pdbqt` is not idempotent.  On an `ATOM`
record with the four-character name `HG11` (right-justify branch) whose
fixing widens the name field to five characters, a second application reads
shifted type columns and rewrites the line again. -/
theorem claim_C6_counterexample :
    (fix_pdbqt hgLine).bind fix_pdbqt ≠ fix_pdbqt hgLine := by decide

/-- Claim C6 (amended): `fix_pdbqt` is idempotent on every pose block whose
atom-record lines each have a nonempty stripped name that formats to an
exactly 4-character field — i.e. the name starts with a digit, or the
derived type is two letters, or the name has at most 3 characters.  (A
four-character name in the right-justify branch widens the field to five
characters and breaks idempotence, see the counterexample.) -/
theorem claim_C6_amended (b : List Char)
    (h : ∀ l ∈ splitNl b, atomTag l = true → nameField l ≠ [] ∧ widthCond l) :
    ∃ b', fix_pdbqt b = some b' ∧ fix_pdbqt b' = some b' := by
  obtain ⟨outs, heq, hrel, hself⟩ := fixLines_good (splitNl b)
    (fun l hl => ⟨no_nl_mem_splitNl b l hl, h l hl⟩)
  refine ⟨joinNl outs, by unfold fix_pdbqt; rw [heq]; rfl, ?_⟩
  have houts_ne : outs ≠ [] := by
    intro h0
    apply splitNl_ne_nil b
    have := hrel.length_eq
    rw [h0] at this
    exact List.length_eq_zero.mp this
  unfold fix_pdbqt
  rw [splitNl_joinNl outs houts_ne (fun o ho => (hself o ho).2),
    fixLines_self outs (fun o ho => (hself o ho).1)]
  rfl

/-- Claim C6 witness: idempotence on a concrete well-formed two-line pose
block. -/
theorem claim_C6_witness :
    ∃ b', fix_pdbqt goodBlock = some b' ∧ fix_pdbqt b' = some b' :=
  claim_C6_amended goodBlock (by decide)

/-- Claim C10 counterexample: `fix_pdbqt` does not always leave columns 17+
unchanged: on an `ATOM` record with the four-character name `HG12` in the
right-justify branch, the widened name field pushes a character into
column 17. -/
theorem claim_C10_counterexample :
    atomTag hg2Line = true ∧
    (fix_pdbqt hg2Line).map (fun l => l.drop 16) ≠ some (hg2Line.drop 16) := by
  exact ⟨by decide, by decide⟩

/-- Claim C10 (amended): for every pose block whose atom-record lines each
have a nonempty stripped name satisfying `widthCond` (formatted name field
exactly 4 characters wide), `fix_pdbqt` succeeds, leaves every
non-atom-record line unchanged, and on every atom-record line preserves all
characters before column 13 and from column 17 onward (in particular the
type columns 78-79, which are read but never written back); without
`widthCond` the name field can widen to five characters and shift all later
columns right by one. -/
theorem claim_C10_amended (b : List Char)
    (h : ∀ l ∈ splitNl b, atomTag l = true → nameField l ≠ [] ∧ widthCond l) :
    ∃ outs : List (List Char), fixLines (splitNl b) = some outs ∧
      fix_pdbqt b = some (joinNl outs) ∧
      List.Forall₂ (fun line out => (atomTag line = false → out = line) ∧
        (atomTag line = true → out.take 12 = line.take 12 ∧ out.drop 16 = line.drop 16))
        (splitNl b) outs := by
  obtain ⟨outs, heq, hrel, _⟩ := fixLines_good (splitNl b)
    (fun l hl => ⟨no_nl_mem_splitNl b l hl, h l hl⟩)
  exact ⟨outs, heq, by unfold fix_pdbqt; rw [heq]; rfl, hrel⟩

/-- Claim C10 witness: the frame property evaluated on a concrete two-line
pose block. -/
theorem claim_C10_witness :
    ∃ outs : List (List Char), fixLines (splitNl goodBlock) = some outs ∧
      fix_pdbqt goodBlock = some (joinNl outs) ∧
      List.Forall₂ (fun line out => (atomTag line = false → out = line) ∧
        (atomTag line = true → out.take 12 = line.take 12 ∧ out.drop 16 = line.drop 16))
        (splitNl goodBlock) outs :=
  claim_C10_amended goodBlock (by decide)

/-- Claim C5 (confirmed): for every attempt oracle, template state, pose
block and molecule id, `pdbqt2molblock`'s loop terminates (within fuel 2,
and identically for any larger fuel), makes at most two parse-and-assign
attempts, the first on the unmodified pose block; a second attempt is made
only when the first failed, and then on the fixed pose block. -/
theorem claim_C5 {σ : Type} (attempt : σ → List Char → Option String × List String × σ)
    (mol_id : String) (tmpl : σ) (b : List Char) :
    ∃ r s', pdbqt2molblock attempt mol_id tmpl b = some (r, s') ∧
      (∀ n : Nat, reconLoop attempt mol_id (n + 2) ⟨b, false, tmpl, [], []⟩ = some (r, s')) ∧
      (s'.attempts = [b] ∨
        ∃ b', fix_pdbqt b = some b' ∧ s'.attempts = [b, b'] ∧ (attempt tmpl b).1 = none) := by
  rcases h1 : attempt tmpl b with ⟨r1, d1, t1⟩
  cases r1 with
  | some mb =>
    refine ⟨some (some mb), ⟨b, false, t1, [b], d1⟩, ?_, ?_, Or.inl rfl⟩
    · simp [pdbqt2molblock, reconLoop, reconStep, h1]
    · intro n
      simp [reconLoop, reconStep, h1]
  | none =>
    cases hfix : fix_pdbqt b with
    | none =>
      refine ⟨none, ⟨b, false, t1, [b], d1 ++ [tryFixMsg mol_id]⟩, ?_, ?_, Or.inl rfl⟩
      · simp [pdbqt2molblock, reconLoop, reconStep, h1, hfix]
      · intro n
        simp [reconLoop, reconStep, h1, hfix]
    | some b' =>
      rcases h2 : attempt t1 b' with ⟨r2, d2, t2⟩
      cases r2 with
      | some mb2 =>
        refine ⟨some (some mb2), ⟨b', true, t2, [b, b'], d1 ++ [tryFixMsg mol_id] ++ d2⟩,
          ?_, ?_, Or.inr ⟨b', rfl, rfl, rfl⟩⟩
        · simp [pdbqt2molblock, reconLoop, reconStep, h1, hfix, h2]
        · intro n
          simp [reconLoop, reconStep, h1, hfix, h2]
      | none =>
        refine ⟨some none,
          ⟨b', true, t2, [b, b'], d1 ++ [tryFixMsg mol_id] ++ d2 ++ [failedMsg mol_id]⟩,
          ?_, ?_, Or.inr ⟨b', rfl, rfl, rfl⟩⟩
        · simp [pdbqt2molblock, reconLoop, reconStep, h1, hfix, h2]
        · intro n
          simp [reconLoop, reconStep, h1, hfix, h2]

theorem maskBoron_contains_false (m : Mol) : (maskBoron m).contains 5 = false := by
  have h : (5 : Nat) ∉ maskBoron m := by
    intro hm
    rcases List.mem_map.mp hm with ⟨a, _, ha⟩
    by_cases h5 : a = 5 <;> simp [h5, maskBoron] at ha
  simpa using h

theorem restoreAt_getD (ids : List Nat) (m : Mol) (j : Nat) (hj : j < m.length) :
    (restoreAt ids m).getD j 0 = if j ∈ ids then 5 else m.getD j 0 := by
  induction ids generalizing m with
  | nil => simp [restoreAt]
  | cons i ids ih =>
    have hstep : restoreAt (i :: ids) m = restoreAt ids (m.set i 5) := rfl
    rw [hstep, ih (m.set i 5) (by rw [List.length_set]; exact hj)]
    by_cases hji : j ∈ ids
    · rw [if_pos hji, if_pos (List.mem_cons_of_mem i hji)]
    · rw [if_neg hji]
      by_cases hj_i : j = i
      · subst hj_i
        rw [if_pos (List.mem_cons_self j ids), List.getD_eq_getElem?_getD,
          List.getElem?_set_self hj]
        rfl
      · rw [if_neg (by
          intro hmem
          rcases List.mem_cons.mp hmem with hc1 | hc2
          · exact hj_i hc1
          · exact hji hc2)]
        rw [List.getD_eq_getElem?_getD, List.getD_eq_getElem?_getD,
          List.getElem?_set_ne (Ne.symm hj_i)]

theorem boron_reduction_eq_of_assign (assignB : Mol → Mol → Option Mol)
    (substMatches : Mol → Mol → List (List Nat)) (mol_B mol mol' : Mol)
    (hA : assignB (maskBoron mol_B) mol = some mol') :
    boron_reduction assignB substMatches mol_B mol =
      match distinctBoronSets substMatches mol_B mol' with
      | [s] => ⟨.ok (some (restoreAt s mol')), some (restoreAt s mol'), []⟩
      | _ => ⟨.ok none, some mol', [ambigMsg]⟩ := by
  simp only [boron_reduction, distinctBoronSets, hA]

/-- Claim C3 (confirmed): `boron_reduction` collects all substructure
matches of the masked template against the bond-assigned structure, forms
the set of distinct sorted index-sets at guarded (boron) template
positions, restores boron at exactly those indices if and only if exactly
one distinct index-set exists, and with any other number of distinct
index-sets returns `None` with the ambiguity diagnostic, leaving every atom
of the bond-assigned structure unmodified. -/
theorem claim_C3 (assignB : Mol → Mol → Option Mol)
    (substMatches : Mol → Mol → List (List Nat)) (mol_B mol mol' : Mol)
    (_hB : mol_B.contains 5 = true)
    (hA : assignB (maskBoron mol_B) mol = some mol') :
    (∀ s : List Nat, distinctBoronSets substMatches mol_B mol' = [s] →
      (boron_reduction assignB substMatches mol_B mol).result =
        .ok (some (restoreAt s mol')) ∧
      (∀ j : Nat, j < mol'.length →
        (restoreAt s mol').getD j 0 = if j ∈ s then 5 else mol'.getD j 0)) ∧
    ((distinctBoronSets substMatches mol_B mol').length ≠ 1 →
      (boron_reduction assignB substMatches mol_B mol).result = .ok none ∧
      (boron_reduction assignB substMatches mol_B mol).finalMol = some mol' ∧
      (boron_reduction assignB substMatches mol_B mol).diags = [ambigMsg]) ∧
    ((∃ m2, (boron_reduction assignB substMatches mol_B mol).result = .ok (some m2)) ↔
      (distinctBoronSets substMatches mol_B mol').length = 1) := by
  have heq := boron_reduction_eq_of_assign assignB substMatches mol_B mol mol' hA
  refine ⟨?_, ?_, ?_⟩
  · intro s hs
    rw [hs] at heq
    rw [heq]
    exact ⟨rfl, fun j hj => restoreAt_getD s mol' j hj⟩
  · intro hlen
    rcases hds : distinctBoronSets substMatches mol_B mol' with _ | ⟨s, _ | ⟨t, rest⟩⟩
    · rw [hds] at heq
      rw [heq]
      exact ⟨rfl, rfl, rfl⟩
    · rw [hds] at hlen
      exact absurd rfl hlen
    · rw [hds] at heq
      rw [heq]
      exact ⟨rfl, rfl, rfl⟩
  · constructor
    · rintro ⟨m2, hm2⟩
      rcases hds : distinctBoronSets substMatches mol_B mol' with _ | ⟨s, _ | ⟨t, rest⟩⟩
      · rw [hds] at heq
        rw [heq] at hm2
        exact absurd hm2 (by simp)
      · rfl
      · rw [hds] at heq
        rw [heq] at hm2
        exact absurd hm2 (by simp)
    · intro hlen
      rcases hds : distinctBoronSets substMatches mol_B mol' with _ | ⟨s, _ | ⟨t, rest⟩⟩
      · rw [hds] at hlen
        simp at hlen
      · rw [hds] at heq
        rw [heq]
        exact ⟨restoreAt s mol', rfl⟩
      · rw [hds] at hlen
        simp at hlen

/-- Claim C3 witness: a one-boron template `[B, C]` with a single
substructure match `(0, 1)` has the unique index-set `{0}` and boron is
restored exactly at index 0. -/
theorem claim_C3_witness :
    (boron_reduction demoAssign demoMatches1 [5, 6] [6, 6]).result = .ok (some [5, 6]) ∧
    distinctBoronSets demoMatches1 [5, 6] [6, 6] = [[0]] := by
  refine ⟨?_, by decide⟩
  have h := (claim_C3 demoAssign demoMatches1 [5, 6] [6, 6] [6, 6] (by decide) rfl).1
    [0] (by decide)
  exact h.1

theorem boron_reduction_diags_of_none (assignB : Mol → Mol → Option Mol)
    (substMatches : Mol → Mol → List (List Nat)) (mol_B mol : Mol)
    (h : (boron_reduction assignB substMatches mol_B mol).result = .ok none) :
    (boron_reduction assignB substMatches mol_B mol).diags = [ambigMsg] := by
  rcases hA : assignB (maskBoron mol_B) mol with _ | mol'
  · have herr : (boron_reduction assignB substMatches mol_B mol).result = .error () := by
      simp only [boron_reduction, hA]
    rw [herr] at h
    exact absurd h (by simp)
  · have heq := boron_reduction_eq_of_assign assignB substMatches mol_B mol mol' hA
    rw [heq] at h ⊢
    rcases hds : distinctBoronSets substMatches mol_B mol' with _ | ⟨s, _ | ⟨t, rest⟩⟩
    · rfl
    · rw [hds] at h
      exact Option.noConfusion (Except.ok.inj h)
    · rfl

theorem boronAttempt_no_boron (parse : List Char → Option Mol)
    (assignB : Mol → Mol → Option Mol) (substMatches : Mol → Mol → List (List Nat))
    (serialize : Mol → String) (tmpl : Mol) (b : List Char)
    (h : tmpl.contains 5 = false) :
    ∃ r, boronAttempt parse assignB substMatches serialize tmpl b = (r, [], tmpl) := by
  have hm : (5 : Nat) ∉ tmpl := by simpa using h
  rcases hp : parse b with _ | mol
  · exact ⟨none, by simp [boronAttempt, hm, hp]⟩
  · rcases ha : assignB tmpl mol with _ | m
    · exact ⟨none, by simp [boronAttempt, hm, hp, ha]⟩
    · exact ⟨some (serialize m), by simp [boronAttempt, hm, hp, ha]⟩

/-- Claim C2 counterexample: with a boron-carrying template whose masked
form matches the reconstructed structure two ways (ambiguous
reconstruction), `pdbqt2molblock` does not terminate without a structure
and without retrying: because `mol.SetProp` on the returned `None` raises
inside the `try`, the exception handler applies the format fixer and
retries, and since `boron_reduction` masked the template's boron in place,
the retry takes the non-guarded path and returns a structure (with the
boron still masked).  The trace shows two attempts, the applied fixer, and
the produced mol block. -/
theorem claim_C2_counterexample :
    pdbqt2molblock (boronAttempt demoParse demoAssign demoMatches2 demoSerialize) "m1"
        demoTemplate ['x'] =
      some (some (some ("MOLBLOCK")),
        ⟨['x'], true, [6, 6], [['x'], ['x']], [ambigMsg, tryFixMsg ("m1")]⟩) := by
  rfl

/-- Claim C2 (amended): when the unmask procedure detects an ambiguous
reconstruction, `boron_reduction` emits the ambiguity diagnostic (distinct
from the parse-failure diagnostics) and returns no structure, but
`pdbqt2molblock` treats this like any other failure: the format fixer is
applied and one retry is made (both diagnostics appear, the attempt trace
has length two), the template is left masked by the first attempt so the
retry takes the non-guarded path, and the call returns without raising. -/
theorem claim_C2_amended (parse : List Char → Option Mol)
    (assignB : Mol → Mol → Option Mol) (substMatches : Mol → Mol → List (List Nat))
    (serialize : Mol → String) (mol_id : String) (tmpl mol : Mol) (b b' : List Char)
    (hB : tmpl.contains 5 = true) (hp : parse b = some mol)
    (hambig : (boron_reduction assignB substMatches tmpl mol).result = .ok none)
    (hfix : fix_pdbqt b = some b') :
    ∃ r s', pdbqt2molblock (boronAttempt parse assignB substMatches serialize)
        mol_id tmpl b = some (r, s') ∧
      r ≠ none ∧ s'.attempts = [b, b'] ∧ s'.tmpl = maskBoron tmpl ∧
      ambigMsg ∈ s'.diags ∧ tryFixMsg mol_id ∈ s'.diags := by
  have hd := boron_reduction_diags_of_none assignB substMatches tmpl mol hambig
  have hmem : (5 : Nat) ∈ tmpl := by simpa using hB
  have hatt1 : boronAttempt parse assignB substMatches serialize tmpl b =
      (none, [ambigMsg], maskBoron tmpl) := by
    simp only [boronAttempt, hp]
    rw [if_pos (by simpa using hB), hambig, hd]
  obtain ⟨r2, hatt2⟩ := boronAttempt_no_boron parse assignB substMatches serialize
    (maskBoron tmpl) b' (maskBoron_contains_false tmpl)
  cases r2 with
  | some mb =>
    refine ⟨some (some mb), ⟨b', true, maskBoron tmpl, [b, b'],
      [ambigMsg, tryFixMsg mol_id]⟩, ?_, by simp, rfl, rfl, by simp, by simp⟩
    simp [pdbqt2molblock, reconLoop, reconStep, hatt1, hfix, hatt2]
  | none =>
    refine ⟨some none, ⟨b', true, maskBoron tmpl, [b, b'],
      [ambigMsg, tryFixMsg mol_id, failedMsg mol_id]⟩, ?_, by simp, rfl, rfl,
      by simp, by simp⟩
    simp [pdbqt2molblock, reconLoop, reconStep, hatt1, hfix, hatt2]

/-- Claim C2 witness: the amended behaviour on a concrete ambiguous
instantiation (symmetric two-way match), via the theorem itself. -/
theorem claim_C2_witness :
    ∃ r s', pdbqt2molblock (boronAttempt demoParse demoAssign demoMatches2 demoSerialize)
        "w2" demoTemplate [] = some (r, s') ∧
      r ≠ none ∧ s'.attempts = [([] : List Char), []] ∧
      s'.tmpl = maskBoron demoTemplate ∧
      ambigMsg ∈ s'.diags ∧ tryFixMsg ("w2") ∈ s'.diags :=
  claim_C2_amended demoParse demoAssign demoMatches2 demoSerialize ("w2") demoTemplate
    [6, 6] [] [] (by decide) rfl (by rfl) (by rfl)

theorem mk_amideRigid_of_parse {ω : Type} (loadMol : String → ω)
    (molFromMolBlock : String → Option Mol) (getAmideMatch : Mol → List Nat)
    (prepare : Bool → ω → Option String) (s : String) (m : Mol)
    (hparse : molFromMolBlock s = some m) :
    (mk_prepare_ligand_string loadMol molFromMolBlock getAmideMatch prepare s).amideRigid
      = some (decide ((getAmideMatch m).length = 0)) := by
  simp only [mk_prepare_ligand_string, hparse]
  rcases prepare (decide ((getAmideMatch m).length = 0)) (loadMol s) with _ | out <;> rfl

/-- Claim C1 counterexample: on an input whose re-parse finds the
non-ring-tertiary-amide pattern (match tuple `[0,1,2,3]`), the
`amide_rigid` flag handed to `MoleculePreparation` is `false`, not the
`true` (rigid) the claim asserts for pattern-found inputs. -/
theorem claim_C1_counterexample :
    demoAmideHit [6, 6, 8, 7] ≠ [] ∧
    (mk_prepare_ligand_string demoLoad demoReparseOk demoAmideHit demoPrep
      "AMIDE").amideRigid = some false ∧
    (mk_prepare_ligand_string demoLoad demoReparseOk demoAmideHit demoPrep
      "AMIDE").amideRigid ≠ some true := by
  exact ⟨by decide, rfl, by decide⟩

/-- Claim C1 (amended): the amide-rigidity heuristic re-parses the input
and scans it for the non-ring tertiary-amide pattern; when *no* such
substructure is found all amide bonds are treated as rigid
(`amide_rigid = true`), and when the pattern *is* found amide bonds are
treated as non-rigid (`amide_rigid = false`) — the opposite orientation of
the claim. -/
theorem claim_C1_amended {ω : Type} (loadMol : String → ω)
    (molFromMolBlock : String → Option Mol) (getAmideMatch : Mol → List Nat)
    (prepare : Bool → ω → Option String) (s : String) (m : Mol)
    (hparse : molFromMolBlock s = some m) :
    (getAmideMatch m = [] →
      (mk_prepare_ligand_string loadMol molFromMolBlock getAmideMatch prepare s).amideRigid
        = some true) ∧
    (getAmideMatch m ≠ [] →
      (mk_prepare_ligand_string loadMol molFromMolBlock getAmideMatch prepare s).amideRigid
        = some false) := by
  have hr := mk_amideRigid_of_parse loadMol molFromMolBlock getAmideMatch prepare s m hparse
  constructor
  · intro h
    rw [hr, h]
    rfl
  · intro h
    rw [hr]
    have : (getAmideMatch m).length ≠ 0 := by
      intro h0
      exact h (List.length_eq_zero.mp h0)
    simp [this]

/-- Claim C1 witness: both orientations of the amended heuristic evaluated
on concrete match oracles, via the theorem itself. -/
theorem claim_C1_witness :
    (mk_prepare_ligand_string demoLoad demoReparseOk demoAmideMiss demoPrep
      "W1").amideRigid = some true ∧
    (mk_prepare_ligand_string demoLoad demoReparseOk demoAmideHit demoPrep
      "W1").amideRigid = some false :=
  ⟨(claim_C1_amended demoLoad demoReparseOk demoAmideMiss demoPrep ("W1") [6, 6, 8, 7]
      rfl).1 rfl,
   (claim_C1_amended demoLoad demoReparseOk demoAmideHit demoPrep ("W1") [6, 6, 8, 7]
      rfl).2 (by decide)⟩

/-- Claim C9 counterexample: on an input string the RDKit re-parse cannot
handle (`MolFromMolBlock` yields `None`), `mk_prepare_ligand_string`
propagates an exception (`AttributeError` at `m.GetSubstructMatch`) to its
caller instead of warning and returning `None`. -/
theorem claim_C9_counterexample :
    (mk_prepare_ligand_string demoLoad demoReparseFail demoAmideHit demoPrep
      "garbage").result = .error () := rfl

/-- Claim C9 (amended): only failures raised inside `preparator.prepare`
are caught — those produce the warning and the `None` return; failures of
the RDKit re-parse used by the amide heuristic are not guarded and
propagate an exception to the caller. -/
theorem claim_C9_amended {ω : Type} (loadMol : String → ω)
    (molFromMolBlock : String → Option Mol) (getAmideMatch : Mol → List Nat)
    (prepare : Bool → ω → Option String) (s : String) :
    (molFromMolBlock s = none →
      (mk_prepare_ligand_string loadMol molFromMolBlock getAmideMatch prepare s).result
        = .error ()) ∧
    (∀ m : Mol, molFromMolBlock s = some m →
      ∃ r : Option String,
        (mk_prepare_ligand_string loadMol molFromMolBlock getAmideMatch prepare s).result
          = .ok r ∧
        (r = none →
          prepare (decide ((getAmideMatch m).length = 0)) (loadMol s) = none ∧
          (mk_prepare_ligand_string loadMol molFromMolBlock getAmideMatch prepare
            s).warnings = [prepWarnMsg]) ∧
        (∀ out : String, r = some out →
          prepare (decide ((getAmideMatch m).length = 0)) (loadMol s) = some out ∧
          (mk_prepare_ligand_string loadMol molFromMolBlock getAmideMatch prepare
            s).warnings = [])) := by
  constructor
  · intro h
    simp only [mk_prepare_ligand_string, h]
  · intro m hm
    rcases hp : prepare (decide ((getAmideMatch m).length = 0)) (loadMol s) with _ | out
    · refine ⟨none, ?_, fun _ => ⟨rfl, ?_⟩, fun out hout => absurd hout (by simp)⟩
      · simp only [mk_prepare_ligand_string, hm, hp]
      · simp only [mk_prepare_ligand_string, hm, hp]
    · refine ⟨some out, ?_, fun h0 => absurd h0 (by simp), ?_⟩
      · simp only [mk_prepare_ligand_string, hm, hp]
      · intro out2 hout2
        rw [Option.some.inj hout2] at hp ⊢
        exact ⟨rfl, by simp only [mk_prepare_ligand_string, hm, hp]⟩

/-- Claim C9 witness: the amended no-propagation guarantee evaluated on a
concrete parseable input with a successful prepare step, via the theorem
itself. -/
theorem claim_C9_witness :
    ∃ r : Option String,
      (mk_prepare_ligand_string demoLoad demoReparseOk demoAmideHit demoPrep
        "W9").result = .ok r ∧
      (r = none →
        demoPrep (decide ((demoAmideHit [6, 6, 8, 7]).length = 0)) (demoLoad ("W9")) = none ∧
        (mk_prepare_ligand_string demoLoad demoReparseOk demoAmideHit demoPrep
          "W9").warnings = [prepWarnMsg]) ∧
      (∀ out : String, r = some out →
        demoPrep (decide ((demoAmideHit [6, 6, 8, 7]).length = 0)) (demoLoad ("W9"))
          = some out ∧
        (mk_prepare_ligand_string demoLoad demoReparseOk demoAmideHit demoPrep
          "W9").warnings = []) :=
  (claim_C9_amended demoLoad demoReparseOk demoAmideHit demoPrep ("W9")).2 [6, 6, 8, 7] rfl

/-- Claim C8 (confirmed): for every parsed molecule without 3D coordinates,
`convert2mol` adds explicit hydrogens and attempts embedding with the
deterministic seed and random coordinates disabled; on failure
(`conf_stat = -1`) it retries exactly once with random coordinates enabled;
if both attempts fail it returns no structure (and, being a total function
of its oracles, raises nothing); on success the force-field refinement runs
once with the fixed iteration cap 100. -/
theorem claim_C8 (is3dF : Mol → Bool) (addHs : Mol → Mol)
    (embed : Mol → Bool → Nat → Mol × Int) (uffOpt : Mol → Nat → Mol)
    (toMolBlock : Mol → String) (seed : Nat) (m : Mol)
    (h3d : is3dF m = false) :
    ((embed (addHs m) false seed).2 ≠ -1 →
      convert2mol is3dF addHs embed uffOpt toMolBlock seed (some m) =
        ⟨some (toMolBlock (maskBoron (uffOpt (embed (addHs m) false seed).1 100))),
         [(addHs m, false, seed)], [((embed (addHs m) false seed).1, 100)]⟩) ∧
    ((embed (addHs m) false seed).2 = -1 →
      ((embed (embed (addHs m) false seed).1 true seed).2 = -1 →
        convert2mol is3dF addHs embed uffOpt toMolBlock seed (some m) =
          ⟨none, [(addHs m, false, seed), ((embed (addHs m) false seed).1, true, seed)],
           []⟩) ∧
      ((embed (embed (addHs m) false seed).1 true seed).2 ≠ -1 →
        convert2mol is3dF addHs embed uffOpt toMolBlock seed (some m) =
          ⟨some (toMolBlock (maskBoron
              (uffOpt (embed (embed (addHs m) false seed).1 true seed).1 100))),
           [(addHs m, false, seed), ((embed (addHs m) false seed).1, true, seed)],
           [((embed (embed (addHs m) false seed).1 true seed).1, 100)]⟩)) := by
  rcases he1 : embed (addHs m) false seed with ⟨m2, st1⟩
  refine ⟨?_, ?_⟩
  · intro hne
    simp only [convert2mol, h3d, Bool.false_eq_true, if_false, he1]
    rw [if_neg hne]
  · intro heq
    rcases he2 : embed m2 true seed with ⟨m3, st2⟩
    refine ⟨?_, ?_⟩
    · intro heq2
      simp only [convert2mol, h3d, Bool.false_eq_true, if_false, he1, he2]
      rw [if_pos heq, if_pos heq2]
    · intro hne2
      simp only [convert2mol, h3d, Bool.false_eq_true, if_false, he1, he2]
      rw [if_pos heq, if_neg hne2]

/-- Claim C8 witness: the retry path evaluated on a concrete embedding
oracle that fails without random coordinates and succeeds with them, via
the theorem itself. -/
theorem claim_C8_witness :
    convert2mol demoNot3d demoAddHs demoEmbedRetry demoUff demoToBlock 7 (some [6]) =
      ⟨some ("CONF"), [([6, 1, 1], false, 7), ([6, 1, 1], true, 7)], [([6, 1, 1], 100)]⟩ :=
  ((claim_C8 demoNot3d demoAddHs demoEmbedRetry demoUff demoToBlock 7 [6] rfl).2
    rfl).2 (by decide)

theorem collectBlocks_some (synthBlock : String → Option String) (mols : List MolRow)
    (h : ∀ r ∈ mols, r.source_mol_block = none → synthBlock r.smi ≠ none) :
    ∃ blocks, collectBlocks synthBlock mols = some blocks := by
  induction mols with
  | nil => exact ⟨[], rfl⟩
  | cons r rest ih =>
    obtain ⟨bs, hbs⟩ := ih (fun x hx => h x (List.mem_cons_of_mem r hx))
    rcases hsrc : r.source_mol_block with _ | b
    · rcases hs : synthBlock r.smi with _ | b2
      · exact absurd hs (h r (List.mem_cons_self r rest) hsrc)
      · refine ⟨b2 :: bs, ?_⟩
        unfold collectBlocks
        rw [hsrc, hs, hbs]
    · refine ⟨b :: bs, ?_⟩
      unfold collectBlocks
      rw [hsrc, hbs]

/-- Claim C7 (confirmed): `add_protonation` is a no-op performing no
external-calculator call when `protonation_done` is already set or
protonation was not requested (every ligand row and the setup row
unchanged); whenever it returns a database it never resets
`protonation_done`; at most one external call is made, any call implies
the returned database has `protonation_done = true`, and a full batch run
(protonation requested, not done, molecules present, no synthesis crash)
makes exactly one call and flips the flag to `true`. -/
theorem claim_C7 (synthBlock : String → Option String) (canon : String → String)
    (cxcalc : List String → List CxRecord) (db : LigDB) :
    (db.setup.protonation_done = true →
      add_protonation synthBlock canon cxcalc db = (some db, 0)) ∧
    (db.setup.protonation = false →
      add_protonation synthBlock canon cxcalc db = (some db, 0)) ∧
    (∀ db', (add_protonation synthBlock canon cxcalc db).1 = some db' →
      (db.setup.protonation_done = true → db' = db) ∧
      (db'.setup.protonation_done = true ∨
        db'.setup.protonation_done = db.setup.protonation_done)) ∧
    ((add_protonation synthBlock canon cxcalc db).2 ≠ 0 →
      ∃ db', (add_protonation synthBlock canon cxcalc db).1 = some db' ∧
        db'.setup.protonation_done = true) ∧
    (add_protonation synthBlock canon cxcalc db).2 ≤ 1 ∧
    (db.setup.protonation = true → db.setup.protonation_done = false → db.mols ≠ [] →
      (∀ r ∈ db.mols, r.source_mol_block = none → synthBlock r.smi ≠ none) →
      ∃ db', add_protonation synthBlock canon cxcalc db = (some db', 1) ∧
        db'.setup.protonation_done = true) := by
  by_cases hrun : db.setup.protonation ∧ ¬ db.setup.protonation_done
  · have hnoop : db.setup.protonation_done = true → False := fun hd => hrun.2 (by rw [hd])
    by_cases hemp : db.mols.isEmpty
    · have heq : add_protonation synthBlock canon cxcalc db = (some db, 0) := by
        unfold add_protonation
        rw [if_pos hrun, if_pos hemp]
      refine ⟨fun hd => absurd hd (fun hd => hnoop hd), fun hp => absurd hrun.1 (by rw [hp]; simp),
        ?_, ?_, ?_, ?_⟩
      · intro db' hdb'
        rw [heq] at hdb'
        have : db' = db := (Option.some.inj hdb').symm
        subst this
        exact ⟨fun _ => rfl, Or.inr rfl⟩
      · rw [heq]
        intro hc
        exact absurd rfl hc
      · rw [heq]
        omega
      · intro _ _ hm _
        exact absurd (List.isEmpty_iff.mp hemp) hm
    · rcases hcb : collectBlocks synthBlock db.mols with _ | blocks
      · have heq : add_protonation synthBlock canon cxcalc db = (none, 0) := by
          unfold add_protonation
          rw [if_pos hrun, if_neg hemp, hcb]
        refine ⟨fun hd => absurd hd (fun hd => hnoop hd),
          fun hp => absurd hrun.1 (by rw [hp]; simp), ?_, ?_, ?_, ?_⟩
        · intro db' hdb'
          rw [heq] at hdb'
          exact absurd hdb' (by simp)
        · rw [heq]
          intro hc
          exact absurd rfl hc
        · rw [heq]
          omega
        · intro _ _ _ hsynth
          obtain ⟨bs, hbs⟩ := collectBlocks_some synthBlock db.mols hsynth
          rw [hcb] at hbs
          exact absurd hbs (by simp)
      · obtain ⟨db1, heq, hdone⟩ : ∃ db1,
            add_protonation synthBlock canon cxcalc db = (some db1, 1) ∧
            db1.setup.protonation_done = true := by
          unfold add_protonation
          rw [if_pos hrun, if_neg hemp, hcb]
          exact ⟨_, rfl, rfl⟩
        refine ⟨fun hd => absurd hd (fun hd => hnoop hd),
          fun hp => absurd hrun.1 (by rw [hp]; simp), ?_, ?_, ?_, ?_⟩
        · intro db' hdb'
          rw [heq] at hdb'
          have : db' = db1 := (Option.some.inj hdb').symm
          subst this
          exact ⟨fun hd => absurd hd (fun hd => hnoop hd), Or.inl hdone⟩
        · intro _
          rw [heq]
          exact ⟨db1, rfl, hdone⟩
        · rw [heq]
        · intro _ _ _ _
          exact ⟨db1, heq, hdone⟩
  · have heq : add_protonation synthBlock canon cxcalc db = (some db, 0) := by
      unfold add_protonation
      rw [if_neg hrun]
    refine ⟨fun _ => heq, fun _ => heq, ?_, ?_, ?_, ?_⟩
    · intro db' hdb'
      rw [heq] at hdb'
      have : db' = db := (Option.some.inj hdb').symm
      subst this
      exact ⟨fun _ => rfl, Or.inr rfl⟩
    · rw [heq]
      intro hc
      exact absurd rfl hc
    · rw [heq]
      omega
    · intro hp hd _ _
      exact absurd ⟨by rw [hp], by rw [hd]; simp⟩ hrun

/-- Claim C7 witness: the no-op on an already-protonated database and the
flag flip on a pending one, via the theorem itself. -/
theorem claim_C7_witness :
    add_protonation demoSynth demoCanon demoCx dbDone = (some dbDone, 0) ∧
    ∃ db', add_protonation demoSynth demoCanon demoCx dbPending = (some db', 1) ∧
      db'.setup.protonation_done = true := by
  constructor
  · exact (claim_C7 demoSynth demoCanon demoCx dbDone).1 rfl
  · exact (claim_C7 demoSynth demoCanon demoCx dbPending).2.2.2.2.2 rfl rfl (by decide)
      (by intro r hr _; simp [demoSynth])

end Moldock
